import Mathlib

/-!
# Verification of the cycloidal-drive geometry generator

Shallow embedding of `src/cycloidal.py` (functions `cycloidal_profile` and
`dual_cycloidal`) over the reals, together with proofs checking the
natural-language specification against the code.

Numpy arrays are modelled as `List ℝ` / `List (ℝ × ℝ)`; elementwise
vectorised arithmetic over a shared parameter grid is modelled as a `map`
of the per-sample formula over the grid.  Failures that Python raises
(`ZeroDivisionError` from scalar division by zero) are modelled with
`Except DomainError`; numpy *array* division by zero does not raise in
Python, so it is not an error case of the embedding (Lean's total division
stands in for the non-finite float values numpy produces there).

External trimesh collaborators (`load_path`, `simplify_spline`,
`planar_matrix`, `circle_pattern`, `concatenate`, `Path2D`) are not part of
this repository; they are modelled from the spec's collaborator contracts
(spec sections 3, 4.2, 4.3) as noted on each definition.
-/

namespace Cycloidal

open Real

/-- Error taxonomy of spec section 7: a `DomainError` is an invalid
geometric/mathematical precondition detected at the point of computation.
`zeroDivision loc` models Python's `ZeroDivisionError` raised while
computing the quantity named `loc`; `invalidCount` models the spec's
circle-pattern precondition `count > 0`. -/
inductive DomainError where
  | zeroDivision (loc : String)
  | invalidCount (loc : String)
  deriving DecidableEq, Repr

noncomputable section

/-- `np.linspace a b n` (endpoint inclusive): `n` evenly spaced samples
`a + i * (b - a) / (n - 1)` for `i = 0, …, n-1`.  For `n = 1` numpy returns
`[a]`, which the formula also yields under Lean's `x / 0 = 0`; for `n = 0`
the list is empty.  (numpy rejects negative sample counts; the embedding is
used only with nonnegative counts.) -/
def linspace (a b : ℝ) (n : ℕ) : List ℝ :=
  (List.range n).map fun i : ℕ => a + (i : ℝ) * (b - a) / ((n : ℝ) - 1)

/-- `denom_B` of `src/cycloidal.py` line 67 at a single sample `p`:
`sqrt(1 + K1² - 2·K1·cos(Zd·p))`. -/
def denomAt (K1 Zd p : ℝ) : ℝ :=
  Real.sqrt (1 + K1 ^ 2 - 2 * K1 * Real.cos (Zd * p))

/-- One row of the profile of `src/cycloidal.py` lines 61-75, evaluated at a
single sample `p` of the ψ grid: `Ze`, `Zd`, `K1`, `denom_B`, `cos_B`,
`sin_B`, `x`, `y` exactly as in the code (numpy's vectorised arithmetic is
elementwise, so the i-th row of the stacked result is this function at the
i-th grid sample).  `np.sign (Zb - Zg)` on integer input is `Int.sign`. -/
def profileAt (Zb Zg : ℤ) (e rz Rz : ℝ) (p : ℝ) : ℝ × ℝ :=
  let Ze : ℝ := (Zb : ℝ) / ((Zb : ℝ) - (Zg : ℝ))
  let Zd : ℝ := (Zg : ℝ) / ((Zb : ℝ) - (Zg : ℝ))
  let K1 : ℝ := e * (Zb : ℝ) / (Rz * ((Zb : ℝ) - (Zg : ℝ)))
  let denom_B : ℝ := denomAt K1 Zd p
  let cos_B : ℝ := (Int.sign (Zb - Zg) : ℝ) * (K1 * Real.sin (Ze * p) - Real.sin p) / denom_B
  let sin_B : ℝ := (Int.sign (Zb - Zg) : ℝ) * (-(K1 * Real.cos (Ze * p)) + Real.cos p) / denom_B
  (Rz * Real.sin p - e * Real.sin (Ze * p) + rz * cos_B,
   Rz * Real.cos p - e * Real.cos (Ze * p) - rz * sin_B)

/-- `np.column_stack((x, y))` over the ψ grid: the profile rows in grid
order, prior to any error handling. -/
def profileRaw (Zb Zg : ℤ) (e rz Rz : ℝ) (N : ℕ) : List (ℝ × ℝ) :=
  (linspace 0 (2 * π) N).map (profileAt Zb Zg e rz Rz)

/-- `cycloidal_profile` of `src/cycloidal.py`.  `count_cam = none` models the
Python default `count_cam=None`, resolved to `count_pin - 1`.  Python raises
`ZeroDivisionError` at `Ze = Zb / (Zb - Zg)` when `Zb = Zg` (integer true
division), and at `K1 = (e*Zb) / (Rz*(Zb - Zg))` when `Rz * (Zb - Zg) = 0`
(float division); both are modelled as `.error`.  The sample count is
`int(resolution * 360)`, i.e. truncation, which for the nonnegative counts
numpy accepts equals `⌊resolution * 360⌋`. -/
def cycloidal_profile (count_pin : ℤ) (eccentricity radius_pin radius_pattern : ℝ)
    (count_cam : Option ℤ := none) (resolution : ℝ := 16) :
    Except DomainError (List (ℝ × ℝ)) :=
  let Rz := radius_pattern
  let rz := radius_pin
  let e := eccentricity
  let Zb := count_pin
  let Zg : ℤ := count_cam.getD (count_pin - 1)
  if Zb - Zg = 0 then .error (.zeroDivision "Ze")
  else if Rz * ((Zb : ℝ) - (Zg : ℝ)) = 0 then .error (.zeroDivision "K1")
  else .ok (profileRaw Zb Zg e rz Rz (Int.toNat ⌊resolution * 360⌋))

/-! ## Path/drawing model (external trimesh collaborators, from the spec) -/

/-- A drawing entity's geometry: a polyline/spline curve (ordered points) or
a circle.  Modelled from the spec: LayeredDrawing holds curves and circles. -/
inductive Geom where
  | curve (points : List (ℝ × ℝ))
  | circle (center : ℝ × ℝ) (radius : ℝ)

/-- Whether a geometry is a circle. -/
def Geom.isCircle : Geom → Bool
  | .curve _ => false
  | .circle _ _ => true

/-- An entity with its layer tag (trimesh entities start untagged). -/
structure Entity2D where
  layer : Option String
  geom : Geom

/-- Modelled from the spec: a `Path2D`/LayeredDrawing is a list of layer
tagged curve/circle entities. -/
structure Path2D where
  entities : List Entity2D

/-- Modelled from the spec (RigidTransform2D, section 4.3 and
`trimesh.transformations.planar_matrix`): rotate by `theta` about the
origin, then translate by `offset`. -/
def planar_matrix (offset : ℝ × ℝ) (theta : ℝ) : ℝ × ℝ → ℝ × ℝ := fun p =>
  (Real.cos theta * p.1 - Real.sin theta * p.2 + offset.1,
   Real.sin theta * p.1 + Real.cos theta * p.2 + offset.2)

/-- Modelled from the spec: `trimesh.load_path` of an `(n, 2)` array yields a
drawing with a single untagged polyline entity holding the points in order. -/
def load_path (points : List (ℝ × ℝ)) : Path2D :=
  ⟨[⟨none, .curve points⟩]⟩

/-- Transform every vertex of a geometry (a rigid motion maps a circle to the
circle about the transformed center with the same radius). -/
def Geom.mapPoints (f : ℝ × ℝ → ℝ × ℝ) : Geom → Geom
  | .curve pts => .curve (pts.map f)
  | .circle c r => .circle (f c) r

/-- Modelled from the spec: `Path2D.apply_transform` applies the planar
motion to every entity in place (here: returning the new value). -/
def Path2D.apply_transform (p : Path2D) (T : ℝ × ℝ → ℝ × ℝ) : Path2D :=
  ⟨p.entities.map fun en => { en with geom := en.geom.mapPoints T }⟩

/-- Modelled from the spec: `Path2D.apply_layer` tags every entity with the
given layer name. -/
def Path2D.apply_layer (p : Path2D) (name : String) : Path2D :=
  ⟨p.entities.map fun en => { en with layer := some name }⟩

/-- Modelled from the spec: the external curve-simplification collaborator
(`Path2D.simplify_spline`) replaces each polyline entity's point list by a
simplified one; its numeric behaviour is outside the repository, so it is
taken as an arbitrary function `simplify` on point lists. -/
def simplify_spline (simplify : List (ℝ × ℝ) → List (ℝ × ℝ)) (p : Path2D) : Path2D :=
  ⟨p.entities.map fun en =>
    match en.geom with
    | .curve pts => { en with geom := .curve (simplify pts) }
    | .circle c r => { en with geom := .circle c r }⟩

/-- Modelled from the spec (CirclePatternGenerator, section 4.2, standing in
for `trimesh.path.creation.circle_pattern`): `count` circles of radius
`circle_radius`, centers `center + pattern_radius·(cos θk, sin θk)` with
`θk = angular_offset + k·(2π/count)`; fails with DomainError when
`count ≤ 0`. -/
def circle_pattern (pattern_radius circle_radius : ℝ) (count : ℤ)
    (center : ℝ × ℝ := (0, 0)) (angular_offset : ℝ := 0) :
    Except DomainError Path2D :=
  if count ≤ 0 then .error (.invalidCount "circle_pattern")
  else .ok ⟨(List.range count.toNat).map fun k : ℕ =>
    ⟨none, .circle
      (center.1 +
        pattern_radius * Real.cos (angular_offset + (k : ℝ) * (2 * π / (count : ℝ))),
       center.2 +
        pattern_radius * Real.sin (angular_offset + (k : ℝ) * (2 * π / (count : ℝ))))
      circle_radius⟩⟩

/-- Modelled from the spec: `trimesh.path.util.concatenate` merges the
drawings, preserving entity order and layer tags. -/
def concatenate (ps : List Path2D) : Path2D :=
  ⟨(ps.map Path2D.entities).flatten⟩

/-- `dual_cycloidal` of `src/cycloidal.py`.  The external spline
simplification is abstracted as the function argument `simplify` (spec:
shape preserving curve simplification collaborator); everything else follows
the code line by line: dense profile with `count_cam = count_pin - 1` and
`resolution = 32`, `spacing = 0.5·π/(count_pin - 1)`, disc A transformed by
offset `(-e, 0)` and rotation `+spacing` then tagged `"cam_disc_A"`, disc B
(a copy of the same simplified curve) by offset `(e, 0)` and rotation
`-spacing` then tagged `"cam_disc_B"`, the pin ring and the two bearing-hole
rings, all concatenated. -/
def dual_cycloidal (simplify : List (ℝ × ℝ) → List (ℝ × ℝ))
    (eccentricity : ℝ := 0.07) (count_pin : ℤ := 24) (radius_pin : ℝ := 0.125)
    (radius_pattern : ℝ := 2.25) (input_count : ℤ := 3)
    (input_radius : ℝ := 0.5625) (input_pattern : ℝ := 1.3125) :
    Except DomainError Path2D := do
  let spacing : ℝ := 0.5 * π / ((count_pin : ℝ) - 1)
  let profile ← cycloidal_profile count_pin eccentricity radius_pin radius_pattern
      (some (count_pin - 1)) 32
  let a0 := simplify_spline simplify (load_path profile)
  let b0 := a0
  let a := (a0.apply_transform (planar_matrix (-eccentricity, 0) spacing)).apply_layer
      "cam_disc_A"
  let b := (b0.apply_transform (planar_matrix (eccentricity, 0) (-spacing))).apply_layer
      "cam_disc_B"
  let pins₀ ← circle_pattern radius_pattern radius_pin count_pin
  let pins := pins₀.apply_layer "pins"
  let holesA₀ ← circle_pattern input_pattern input_radius input_count (-eccentricity, 0)
  let holes_A := holesA₀.apply_layer "cam_disc_A"
  let holesB₀ ← circle_pattern input_pattern input_radius input_count (eccentricity, 0)
  let holes_B := holesB₀.apply_layer "cam_disc_B"
  return concatenate [a, b, pins, holes_A, holes_B]

/-- The closed-form output description of claim C1, written from the spec's
words (not from the code): row `i` is the `(x, y)` pair of the equations
`Ze = Zb/(Zb-Zg)`, `Zd = Zg/(Zb-Zg)`, `K1 = (e·Zb)/(Rz·(Zb-Zg))`,
`denom_B = sqrt(1 + K1² - 2·K1·cos(Zd·ψ))`, `s = sign(Zb-Zg)`,
`cos_B = s·(K1·sin(Ze·ψ) - sin(ψ))/denom_B`,
`sin_B = s·(-K1·cos(Ze·ψ) + cos(ψ))/denom_B`,
`x = Rz·sin(ψ) - e·sin(Ze·ψ) + rz·cos_B`,
`y = Rz·cos(ψ) - e·cos(Ze·ψ) - rz·sin_B`, evaluated at the i-th sample
`ψ_i = i·2π/(N-1)` of the N evenly spaced samples over `[0, 2π]`.  To be
compared against `cycloidal_profile` (refinement claim). -/
def profileSpec (Zb Zg : ℤ) (e rz Rz : ℝ) (N : ℕ) : List (ℝ × ℝ) :=
  (List.range N).map fun i : ℕ =>
    let ψ : ℝ := (i : ℝ) * (2 * π) / ((N : ℝ) - 1)
    let Ze : ℝ := (Zb : ℝ) / ((Zb : ℝ) - (Zg : ℝ))
    let Zd : ℝ := (Zg : ℝ) / ((Zb : ℝ) - (Zg : ℝ))
    let K1 : ℝ := e * (Zb : ℝ) / (Rz * ((Zb : ℝ) - (Zg : ℝ)))
    let denom_B : ℝ := Real.sqrt (1 + K1 ^ 2 - 2 * K1 * Real.cos (Zd * ψ))
    let s : ℝ := (Int.sign (Zb - Zg) : ℝ)
    let cos_B : ℝ := s * (K1 * Real.sin (Ze * ψ) - Real.sin ψ) / denom_B
    let sin_B : ℝ := s * (-(K1 * Real.cos (Ze * ψ)) + Real.cos ψ) / denom_B
    (Rz * Real.sin ψ - e * Real.sin (Ze * ψ) + rz * cos_B,
     Rz * Real.cos ψ - e * Real.cos (Ze * ψ) - rz * sin_B)

/-- The transformed disc-A profile point of claim C2, at the claim's
parameters `eccentricity = 0.07`, `pin_count = 24`, `pin_radius = 0.125`,
`pattern_radius = 2.25`: the base profile point (cam count `24 - 1 = 23`)
rotated by `+half_tooth_spacing = +0.5·π/23` then offset by `(-e, 0)` — the
exact transform `dual_cycloidal` applies to disc A. -/
def discA_point (ψ : ℝ) : ℝ × ℝ :=
  planar_matrix (-(0.07 : ℝ), 0) (0.5 * π / 23) (profileAt 24 23 0.07 0.125 2.25 ψ)

/-- The transformed disc-B profile point of claim C2: the same base profile
point rotated by `-half_tooth_spacing` then offset by `(+e, 0)` — the exact
transform `dual_cycloidal` applies to disc B. -/
def discB_point (ψ : ℝ) : ℝ × ℝ :=
  planar_matrix ((0.07 : ℝ), 0) (-(0.5 * π / 23)) (profileAt 24 23 0.07 0.125 2.25 ψ)

end

/-! ## Helper lemmas about the grid and the success path -/

theorem linspace_length (a b : ℝ) (n : ℕ) : (linspace a b n).length = n := by
  rw [linspace, List.length_map, List.length_range]

theorem linspace_getElem? (a b : ℝ) {i n : ℕ} (h : i < n) :
    (linspace a b n)[i]? = some (a + (i : ℝ) * (b - a) / ((n : ℝ) - 1)) := by
  rw [linspace, List.getElem?_map, List.getElem?_range h, Option.map_some']

theorem linspace_head? (a b : ℝ) {n : ℕ} (h : 0 < n) :
    (linspace a b n).head? = some a := by
  obtain ⟨m, rfl⟩ : ∃ m, n = m + 1 := ⟨n - 1, by omega⟩
  rw [linspace, List.range_succ_eq_map, List.map_cons, List.head?_cons]
  push_cast
  norm_num

theorem linspace_getLast? (a b : ℝ) {n : ℕ} (h : 2 ≤ n) :
    (linspace a b n).getLast? = some b := by
  obtain ⟨m, rfl⟩ : ∃ m, n = m + 1 := ⟨n - 1, by omega⟩
  have hm : ((m : ℝ)) ≠ 0 := by
    have : m ≠ 0 := by omega
    exact_mod_cast this
  rw [linspace, List.range_succ, List.map_append, List.map_singleton,
    List.getLast?_concat]
  congr 1
  push_cast
  field_simp

/-- The success path of `cycloidal_profile`: when the effective cam count
differs from the pin count and the pattern radius is nonzero, no division
raises and the raw sampled profile is returned. -/
theorem cycloidal_profile_ok (Zb : ℤ) (e rz Rz : ℝ) (cam : Option ℤ) (res : ℝ)
    (hZ : cam.getD (Zb - 1) ≠ Zb) (hR : Rz ≠ 0) :
    cycloidal_profile Zb e rz Rz cam res =
      .ok (profileRaw Zb (cam.getD (Zb - 1)) e rz Rz (Int.toNat ⌊res * 360⌋)) := by
  have h1 : ¬(Zb - cam.getD (Zb - 1) = 0) := by omega
  have hcast : ((Zb : ℝ) - (cam.getD (Zb - 1) : ℝ)) ≠ 0 := by
    rw [sub_ne_zero]
    intro hc
    exact hZ (by exact_mod_cast hc.symm)
  have h2 : ¬(Rz * ((Zb : ℝ) - (cam.getD (Zb - 1) : ℝ)) = 0) :=
    mul_ne_zero hR hcast
  unfold cycloidal_profile
  rw [if_neg h1, if_neg h2]

theorem profileRaw_head? (Zb Zg : ℤ) (e rz Rz : ℝ) {N : ℕ} (h : 0 < N) :
    (profileRaw Zb Zg e rz Rz N).head? = some (profileAt Zb Zg e rz Rz 0) := by
  unfold profileRaw
  rw [List.head?_map, linspace_head? _ _ h, Option.map_some']

theorem profileRaw_getLast? (Zb Zg : ℤ) (e rz Rz : ℝ) {N : ℕ} (h : 2 ≤ N) :
    (profileRaw Zb Zg e rz Rz N).getLast? =
      some (profileAt Zb Zg e rz Rz (2 * π)) := by
  unfold profileRaw
  rw [List.getLast?_map, linspace_getLast? _ _ h, Option.map_some']

/-! ## Claim C6: equal pin and cam counts raise a DomainError -/

/-- C6: for every input where the effective cam count (`count_cam`, or its
default `count_pin - 1`) equals `count_pin`, `cycloidal_profile` raises a
DomainError (the division by zero computing `Ze`) and produces no partial
result (the error carries no profile data). -/
theorem equal_counts_domain_error (count_pin : ℤ) (e rz Rz : ℝ)
    (count_cam : Option ℤ) (res : ℝ)
    (h : count_cam.getD (count_pin - 1) = count_pin) :
    cycloidal_profile count_pin e rz Rz count_cam res =
      .error (.zeroDivision "Ze") := by
  unfold cycloidal_profile
  simp [h]

/-- C6 witness: `count_pin = count_cam = 24` raises the `Ze` division error. -/
theorem equal_counts_domain_error_witness :
    cycloidal_profile 24 0.07 0.125 2.25 (some 24) 16 =
      .error (.zeroDivision "Ze") :=
  equal_counts_domain_error 24 0.07 0.125 2.25 (some 24) 16 rfl

/-! ## Claim C5: behaviour when `denom_B` vanishes

The claim states `cycloidal_profile` fails with a DomainError when `denom_B`
is exactly zero somewhere.  The code does not: numpy array division by zero
does not raise, so the function returns normally (with non-finite values in
the floats).  At `count_pin = 2`, `count_cam = 1`, `eccentricity = 1`,
`pattern_radius = 2` we get `K1 = 1` and `Zd = 1`, and the first grid sample
is `ψ₀ = 0` with `cos(Zd·ψ₀) = 1`, so `denom_B = 0` there — yet the call
returns `.ok`. -/

/-- C5 counterexample: an input whose `denom_B` is exactly zero at the first
sample (`K1 = 1`, `cos(Zd·ψ₀) = cos 0 = 1`), on which `cycloidal_profile`
nevertheless returns normally instead of failing with a DomainError. -/
theorem denom_zero_returns_normally :
    (cycloidal_profile 2 1 (1/8) 2 (some 1) 16).isOk = true ∧
    denomAt ((1 : ℝ) * 2 / (2 * ((2 : ℝ) - 1))) ((1 : ℝ) / ((2 : ℝ) - 1)) 0 = 0 ∧
    (linspace 0 (2 * π) 5760).head? = some 0 := by
  refine ⟨?_, ?_, ?_⟩
  · rw [cycloidal_profile_ok 2 1 (1/8) 2 (some 1) 16 (by decide) (by norm_num)]
    rfl
  · rw [denomAt, show ((1 : ℝ) * 2 / (2 * ((2 : ℝ) - 1))) = 1 by norm_num,
      show ((1 : ℝ) / ((2 : ℝ) - 1)) * 0 = 0 by ring, Real.cos_zero]
    norm_num
  · exact linspace_head? 0 (2 * π) (by norm_num)

/-- C5 (amended): the only failures of `cycloidal_profile` are the scalar
divisions by zero computing `Ze` (when `pin_count = cam_count`) and `K1`
(when `pattern_radius = 0`); for every other input — in particular whenever
`denom_B` vanishes at some sample — it returns normally, performing no other
validation of eccentricity, pin radius or pattern radius. -/
theorem no_denominator_validation (Zb : ℤ) (e rz Rz : ℝ) (cam : Option ℤ)
    (res : ℝ) (hZ : cam.getD (Zb - 1) ≠ Zb) (hR : Rz ≠ 0) :
    (cycloidal_profile Zb e rz Rz cam res).isOk = true := by
  rw [cycloidal_profile_ok Zb e rz Rz cam res hZ hR]
  rfl

/-- C5 witness: the amended claim applied at the very input whose `denom_B`
vanishes at the first sample. -/
theorem no_denominator_validation_witness :
    (cycloidal_profile 2 1 (1/8) 2 (some 1) 16).isOk = true :=
  no_denominator_validation 2 1 (1/8) 2 (some 1) 16 (by decide) (by norm_num)

/-! ## Claim C7: the ψ grid and the row count -/

/-- C7: for an integer resolution `n ≥ 1` the sample count is exactly
`n * 360`; the ψ grid is the `n * 360` evenly spaced samples
`ψ_i = i·2π/(N-1)` over the closed interval `[0, 2π]` (first sample `0`,
last sample `2π`), and the returned profile has exactly `n * 360` rows. -/
theorem grid_and_row_count (Zb : ℤ) (e rz Rz : ℝ) (cam : Option ℤ) (n : ℕ)
    (hn : 1 ≤ n) (hZ : cam.getD (Zb - 1) ≠ Zb) (hR : Rz ≠ 0) :
    Int.toNat ⌊(n : ℝ) * 360⌋ = n * 360 ∧
    (linspace 0 (2 * π) (n * 360)).length = n * 360 ∧
    (∀ i : ℕ, i < n * 360 →
      (linspace 0 (2 * π) (n * 360))[i]? =
        some ((i : ℝ) * (2 * π) / (((n * 360 : ℕ) : ℝ) - 1))) ∧
    (linspace 0 (2 * π) (n * 360)).head? = some 0 ∧
    (linspace 0 (2 * π) (n * 360)).getLast? = some (2 * π) ∧
    (cycloidal_profile Zb e rz Rz cam (n : ℝ)).map List.length = .ok (n * 360) := by
  have hfloor : Int.toNat ⌊(n : ℝ) * 360⌋ = n * 360 := by
    rw [show ((n : ℝ) * 360) = ((n * 360 : ℕ) : ℝ) by push_cast; ring,
      Int.floor_natCast, Int.toNat_natCast]
  refine ⟨hfloor, linspace_length _ _ _, ?_, ?_, ?_, ?_⟩
  · intro i hi
    rw [linspace_getElem? 0 (2 * π) hi]
    norm_num
  · exact linspace_head? _ _ (by omega)
  · exact linspace_getLast? _ _ (by omega)
  · rw [cycloidal_profile_ok Zb e rz Rz cam (n : ℝ) hZ hR, hfloor]
    show Except.ok _ = _
    rw [profileRaw, List.length_map, linspace_length]

/-- C7 witness: the default configuration `resolution = 16` yields exactly
`5760` samples and rows. -/
theorem grid_and_row_count_witness :
    Int.toNat ⌊((16 : ℕ) : ℝ) * 360⌋ = 16 * 360 ∧
    (linspace 0 (2 * π) (16 * 360)).length = 16 * 360 ∧
    (∀ i : ℕ, i < 16 * 360 →
      (linspace 0 (2 * π) (16 * 360))[i]? =
        some ((i : ℝ) * (2 * π) / (((16 * 360 : ℕ) : ℝ) - 1))) ∧
    (linspace 0 (2 * π) (16 * 360)).head? = some 0 ∧
    (linspace 0 (2 * π) (16 * 360)).getLast? = some (2 * π) ∧
    (cycloidal_profile 24 0.07 0.125 2.25 none ((16 : ℕ) : ℝ)).map List.length =
      .ok (16 * 360) :=
  grid_and_row_count 24 0.07 0.125 2.25 none 16 (by norm_num) (by decide)
    (by norm_num)

/-! ## Claim C10: truncation of the sample count -/

/-- C10: the sample count is the truncation `int(resolution * 360)`; for
`0 ≤ resolution * 360 < 1` the function returns an empty curve without any
error, and non-integer resolutions silently produce `⌊resolution * 360⌋`
samples. -/
theorem resolution_truncation (Zb : ℤ) (e rz Rz : ℝ) (cam : Option ℤ)
    (res : ℝ) (h0 : 0 ≤ res) (hZ : cam.getD (Zb - 1) ≠ Zb) (hR : Rz ≠ 0) :
    (cycloidal_profile Zb e rz Rz cam res).map List.length =
      .ok (Int.toNat ⌊res * 360⌋) ∧
    (res * 360 < 1 → cycloidal_profile Zb e rz Rz cam res = .ok []) := by
  constructor
  · rw [cycloidal_profile_ok Zb e rz Rz cam res hZ hR]
    show Except.ok _ = _
    rw [profileRaw, List.length_map, linspace_length]
  · intro h1
    rw [cycloidal_profile_ok Zb e rz Rz cam res hZ hR]
    have hf : ⌊res * 360⌋ = 0 := by
      rw [Int.floor_eq_zero_iff]
      exact ⟨mul_nonneg h0 (by norm_num), h1⟩
    rw [hf]
    rfl

/-- C10 witness: `resolution = 1/720` gives `resolution * 360 = 1/2`, an
empty profile and no error. -/
theorem resolution_truncation_witness :
    (cycloidal_profile 24 0.07 0.125 2.25 none (1/720)).map List.length =
      .ok (Int.toNat ⌊(1/720 : ℝ) * 360⌋) ∧
    ((1/720 : ℝ) * 360 < 1 →
      cycloidal_profile 24 0.07 0.125 2.25 none (1/720) = .ok []) :=
  resolution_truncation 24 0.07 0.125 2.25 none (1/720) (by norm_num)
    (by decide) (by norm_num)

/-! ## Claim C1: the profile equals the closed-form equations -/

/-- C1: for every input with distinct pin and cam counts (and a nonzero
pattern radius, without which `K1` is not a well defined real and the code
raises), `cycloidal_profile` returns exactly the N×2 list of `(x, y)` pairs
of the spec's closed-form equations, the i-th row being the equations at the
i-th sample `ψ_i`. -/
theorem profile_matches_closed_form (Zb : ℤ) (e rz Rz : ℝ) (cam : Option ℤ)
    (res : ℝ) (hZ : cam.getD (Zb - 1) ≠ Zb) (hR : Rz ≠ 0) :
    cycloidal_profile Zb e rz Rz cam res =
      .ok (profileSpec Zb (cam.getD (Zb - 1)) e rz Rz (Int.toNat ⌊res * 360⌋)) := by
  rw [cycloidal_profile_ok Zb e rz Rz cam res hZ hR]
  congr 1
  rw [profileRaw, profileSpec, linspace, List.map_map]
  apply List.map_congr_left
  intro i _
  simp only [Function.comp_apply, profileAt, denomAt]
  norm_num

/-- C1 witness: the default dual-disc parameters
(`24` pins, default cam count `23`, `resolution = 16`). -/
theorem profile_matches_closed_form_witness :
    cycloidal_profile 24 0.07 0.125 2.25 none 16 =
      .ok (profileSpec 24 (Option.getD none (24 - 1)) 0.07 0.125 2.25
        (Int.toNat ⌊(16 : ℝ) * 360⌋)) :=
  profile_matches_closed_form 24 0.07 0.125 2.25 none 16 (by decide) (by norm_num)

/-! ## Claim C4: closure of the profile

The claim asserts `profile(ψ = 0) = profile(ψ = 2π)` for *any* valid
parameters.  That holds exactly when `Ze = Zb/(Zb-Zg)` and `Zd = Zg/(Zb-Zg)`
are integers, i.e. when `(Zb - Zg) ∣ Zb` — in particular for the regular
disc `Zg = Zb - 1` — but fails otherwise: at `Zb = 5`, `Zg = 3` the terms
`e·sin(Ze·ψ)`, `e·cos(Ze·ψ)` have period `4π` in ψ, and the first and last
points differ by `2e` in the y coordinate. -/

theorem profileAt_two_pi_eq_zero (Zb Zg : ℤ) (e rz Rz : ℝ)
    (hne : Zb ≠ Zg) (hdvd : (Zb - Zg) ∣ Zb) :
    profileAt Zb Zg e rz Rz (2 * π) = profileAt Zb Zg e rz Rz 0 := by
  obtain ⟨k, hk⟩ := hdvd
  have hdiff : ((Zb : ℝ) - (Zg : ℝ)) ≠ 0 := by
    rw [sub_ne_zero]
    exact_mod_cast hne
  have hkR : (Zb : ℝ) = ((Zb : ℝ) - (Zg : ℝ)) * (k : ℝ) := by exact_mod_cast hk
  have hZe : (Zb : ℝ) / ((Zb : ℝ) - (Zg : ℝ)) = (k : ℝ) := by
    rw [div_eq_iff hdiff]
    linear_combination hkR
  have hZd : (Zg : ℝ) / ((Zb : ℝ) - (Zg : ℝ)) = (k : ℝ) - 1 := by
    rw [div_eq_iff hdiff]
    linear_combination hkR
  have hsin : Real.sin ((k : ℝ) * (2 * π)) = 0 := by
    rw [show (k : ℝ) * (2 * π) = 0 + (k : ℤ) * (2 * π) by ring,
      Real.sin_add_int_mul_two_pi, Real.sin_zero]
  have hcos : Real.cos ((k : ℝ) * (2 * π)) = 1 := by
    rw [show (k : ℝ) * (2 * π) = 0 + (k : ℤ) * (2 * π) by ring,
      Real.cos_add_int_mul_two_pi, Real.cos_zero]
  have hcosd : Real.cos (((k : ℝ) - 1) * (2 * π)) = 1 := by
    rw [show ((k : ℝ) - 1) * (2 * π) = 0 + ((k - 1 : ℤ) : ℝ) * (2 * π) by
        push_cast; ring,
      Real.cos_add_int_mul_two_pi, Real.cos_zero]
  simp only [profileAt, denomAt, hZe, hZd]
  rw [hsin, hcos, hcosd, Real.sin_two_pi, Real.cos_two_pi]
  simp only [mul_zero, Real.sin_zero, Real.cos_zero]

/-- C4 (amended): for valid parameters such that `(Zb - Zg)` divides `Zb`
(equivalently: `Ze` and `Zd` are integers — always true for the default
regular disc `Zg = Zb - 1`), the first and last points of the returned curve
coincide exactly, because ψ sweeps exactly one full period. -/
theorem profile_closure_of_dvd (Zb : ℤ) (e rz Rz : ℝ) (cam : Option ℤ)
    (res : ℝ) (hZ : cam.getD (Zb - 1) ≠ Zb) (hR : Rz ≠ 0)
    (hdvd : (Zb - cam.getD (Zb - 1)) ∣ Zb)
    (hN : 2 ≤ Int.toNat ⌊res * 360⌋) :
    (cycloidal_profile Zb e rz Rz cam res).map List.head? =
      (cycloidal_profile Zb e rz Rz cam res).map List.getLast? ∧
    (cycloidal_profile Zb e rz Rz cam res).map List.head? =
      .ok (some (profileAt Zb (cam.getD (Zb - 1)) e rz Rz 0)) := by
  rw [cycloidal_profile_ok Zb e rz Rz cam res hZ hR]
  have h1 := profileRaw_head? Zb (cam.getD (Zb - 1)) e rz Rz
    (show 0 < Int.toNat ⌊res * 360⌋ by omega)
  have h2 := profileRaw_getLast? Zb (cam.getD (Zb - 1)) e rz Rz hN
  constructor
  · show Except.ok _ = Except.ok _
    rw [h1, h2,
      profileAt_two_pi_eq_zero Zb (cam.getD (Zb - 1)) e rz Rz (fun hc => hZ hc.symm) hdvd]
  · show Except.ok _ = Except.ok _
    rw [h1]

/-- C4 witness: the default regular disc (`24` pins, cam count `23`,
`resolution = 16`) has coinciding first and last points. -/
theorem profile_closure_of_dvd_witness :
    (cycloidal_profile 24 0.07 0.125 2.25 none 16).map List.head? =
      (cycloidal_profile 24 0.07 0.125 2.25 none 16).map List.getLast? ∧
    (cycloidal_profile 24 0.07 0.125 2.25 none 16).map List.head? =
      .ok (some (profileAt 24 (Option.getD none (24 - 1)) 0.07 0.125 2.25 0)) :=
  profile_closure_of_dvd 24 0.07 0.125 2.25 none 16 (by decide) (by norm_num)
    (by decide)
    (by rw [show ((16 : ℝ) * 360) = ((5760 : ℕ) : ℝ) by norm_num,
          Int.floor_natCast, Int.toNat_natCast]
        norm_num)

/-- Evaluation of the profile formula at ψ = 0 when the sign is positive and
`K1 < 1`: the first point is `(0, Rz - e - rz)`. -/
theorem profileAt_zero_eval (Zb Zg : ℤ) (e rz Rz : ℝ) (hpos : 0 < Zb - Zg)
    (hK : e * (Zb : ℝ) / (Rz * ((Zb : ℝ) - (Zg : ℝ))) < 1) :
    profileAt Zb Zg e rz Rz 0 = (0, Rz - e - rz) := by
  have hsign : ((Int.sign (Zb - Zg) : ℤ) : ℝ) = 1 := by
    rw [Int.sign_eq_one_of_pos hpos]
    norm_num
  have hsq : Real.sqrt (1 + (e * (Zb : ℝ) / (Rz * ((Zb : ℝ) - (Zg : ℝ)))) ^ 2 -
      2 * (e * (Zb : ℝ) / (Rz * ((Zb : ℝ) - (Zg : ℝ)))) * 1) =
      1 - e * (Zb : ℝ) / (Rz * ((Zb : ℝ) - (Zg : ℝ))) := by
    rw [show 1 + (e * (Zb : ℝ) / (Rz * ((Zb : ℝ) - (Zg : ℝ)))) ^ 2 -
        2 * (e * (Zb : ℝ) / (Rz * ((Zb : ℝ) - (Zg : ℝ)))) * 1 =
        (1 - e * (Zb : ℝ) / (Rz * ((Zb : ℝ) - (Zg : ℝ)))) ^ 2 by ring,
      Real.sqrt_sq (by linarith)]
  have hone : (1 : ℝ) - e * (Zb : ℝ) / (Rz * ((Zb : ℝ) - (Zg : ℝ))) ≠ 0 := by
    intro hc
    nlinarith [hK]
  simp only [profileAt, denomAt, mul_zero, Real.sin_zero, Real.cos_zero]
  rw [hsq, hsign]
  simp only [Prod.mk.injEq]
  constructor
  · simp
  · field_simp
    ring

theorem profileAt_5_3_two_pi :
    profileAt 5 3 (1/100) (1/8) 1 (2 * π) = (0, 177/200) := by
  have h5s : Real.sin ((5 : ℝ) / (5 - 3) * (2 * π)) = 0 := by
    rw [show (5 : ℝ) / (5 - 3) * (2 * π) = π + (2 : ℤ) * (2 * π) by
        push_cast; ring,
      Real.sin_add_int_mul_two_pi, Real.sin_pi]
  have h5c : Real.cos ((5 : ℝ) / (5 - 3) * (2 * π)) = -1 := by
    rw [show (5 : ℝ) / (5 - 3) * (2 * π) = π + (2 : ℤ) * (2 * π) by
        push_cast; ring,
      Real.cos_add_int_mul_two_pi, Real.cos_pi]
  have h3c : Real.cos ((3 : ℝ) / (5 - 3) * (2 * π)) = -1 := by
    rw [show (3 : ℝ) / (5 - 3) * (2 * π) = π + (1 : ℤ) * (2 * π) by
        push_cast; ring,
      Real.cos_add_int_mul_two_pi, Real.cos_pi]
  have hsq : Real.sqrt (1 + ((1:ℝ)/100 * 5 / (1 * ((5:ℝ) - 3))) ^ 2 -
      2 * ((1:ℝ)/100 * 5 / (1 * ((5:ℝ) - 3))) * (-1)) = 41/40 := by
    rw [show 1 + ((1:ℝ)/100 * 5 / (1 * ((5:ℝ) - 3))) ^ 2 -
        2 * ((1:ℝ)/100 * 5 / (1 * ((5:ℝ) - 3))) * (-1) = (41/40 : ℝ) ^ 2 by
        norm_num,
      Real.sqrt_sq (by norm_num)]
  have hsign : ((Int.sign (2 : ℤ) : ℤ) : ℝ) = 1 := by
    rw [show Int.sign (2 : ℤ) = 1 from by decide]
    norm_num
  simp only [profileAt, denomAt]
  push_cast
  rw [h5s, h5c, h3c, hsq, Real.sin_two_pi, Real.cos_two_pi]
  simp only [Prod.mk.injEq]
  constructor
  · norm_num [hsign]
  · norm_num [hsign]

/-- C4 counterexample: the valid parameter set `pin_count = 5`,
`cam_count = 3`, `eccentricity = 1/100`, `pin_radius = 1/8`,
`pattern_radius = 1`, `resolution = 16` (distinct counts, `K1 = 1/40 ≠ 1` so
`denom_B` never vanishes) whose first point `(0, 173/200)` and last point
`(0, 177/200)` differ by `2e` in y — the claimed closure fails. -/
theorem profile_closure_fails :
    (cycloidal_profile 5 (1/100) (1/8) 1 (some 3) 16).map List.head? ≠
      (cycloidal_profile 5 (1/100) (1/8) 1 (some 3) 16).map List.getLast? := by
  have hN : (5760 : ℕ) = Int.toNat ⌊(16 : ℝ) * 360⌋ := by
    rw [show ((16 : ℝ) * 360) = ((5760 : ℕ) : ℝ) by norm_num,
      Int.floor_natCast, Int.toNat_natCast]
  rw [cycloidal_profile_ok 5 (1/100) (1/8) 1 (some 3) 16 (by decide) (by norm_num)]
  show Except.ok _ ≠ Except.ok _
  rw [profileRaw_head? 5 ((some (3:ℤ)).getD (5 - 1)) (1/100) (1/8) 1
      (show 0 < Int.toNat ⌊(16:ℝ) * 360⌋ by rw [← hN]; norm_num),
    profileRaw_getLast? 5 ((some (3:ℤ)).getD (5 - 1)) (1/100) (1/8) 1
      (show 2 ≤ Int.toNat ⌊(16:ℝ) * 360⌋ by rw [← hN]; norm_num)]
  have h0 : profileAt 5 ((some (3:ℤ)).getD (5 - 1)) (1/100) (1/8) 1 0 =
      (0, 173/200) := by
    rw [show (some (3:ℤ)).getD (5 - 1) = 3 from rfl,
      profileAt_zero_eval 5 3 (1/100) (1/8) 1 (by decide) (by norm_num)]
    norm_num
  have h2 : profileAt 5 ((some (3:ℤ)).getD (5 - 1)) (1/100) (1/8) 1 (2 * π) =
      (0, 177/200) := by
    rw [show (some (3:ℤ)).getD (5 - 1) = 3 from rfl]
    exact profileAt_5_3_two_pi
  rw [h0, h2]
  intro hc
  have := Except.ok.inj hc
  have := Option.some.inj this
  have := congrArg Prod.snd this
  norm_num at this

/-! ## Claim C2: the phase relation between the two discs

The claim pairs the disc-A point at ψ with the disc-B point at `ψ + π`.
That pairing is wrong: at `ψ = 0` the two transformed points differ by a
vector of length `2e` (≈ 0.14 here, far beyond any floating tolerance).
The relation that does hold — exactly, in real arithmetic — pairs `ψ` with
`ψ + 22π/23` (= `π - π/23`, i.e. half a turn minus one tooth pitch
`2·half_tooth_spacing`), because the 23-lobed profile satisfies
`P(ψ + 22π/23) = R(-22π/23)·P(ψ)`. -/

/-- Evaluation of the base profile at ψ = π for the claim's parameters:
`(0, -(Rz + e - rz)) = (0, -2.195)`. -/
theorem profileAt_24_23_pi :
    profileAt 24 23 (0.07 : ℝ) 0.125 2.25 π = (0, -2.195) := by
  have h24s : Real.sin ((24 : ℝ) / (24 - 23) * π) = 0 := by
    rw [show (24 : ℝ) / (24 - 23) * π = 0 + (12 : ℤ) * (2 * π) by push_cast; ring,
      Real.sin_add_int_mul_two_pi, Real.sin_zero]
  have h24c : Real.cos ((24 : ℝ) / (24 - 23) * π) = 1 := by
    rw [show (24 : ℝ) / (24 - 23) * π = 0 + (12 : ℤ) * (2 * π) by push_cast; ring,
      Real.cos_add_int_mul_two_pi, Real.cos_zero]
  have h23c : Real.cos ((23 : ℝ) / (24 - 23) * π) = -1 := by
    rw [show (23 : ℝ) / (24 - 23) * π = π + (11 : ℤ) * (2 * π) by push_cast; ring,
      Real.cos_add_int_mul_two_pi, Real.cos_pi]
  have hsq : Real.sqrt (1 + ((0.07 : ℝ) * 24 / (2.25 * ((24 : ℝ) - 23))) ^ 2 -
      2 * ((0.07 : ℝ) * 24 / (2.25 * ((24 : ℝ) - 23))) * (-1)) = 131 / 75 := by
    rw [show 1 + ((0.07 : ℝ) * 24 / (2.25 * ((24 : ℝ) - 23))) ^ 2 -
        2 * ((0.07 : ℝ) * 24 / (2.25 * ((24 : ℝ) - 23))) * (-1) =
        (131 / 75 : ℝ) ^ 2 by norm_num,
      Real.sqrt_sq (by norm_num)]
  have hsign : ((Int.sign (1 : ℤ) : ℤ) : ℝ) = 1 := by
    rw [show Int.sign (1 : ℤ) = 1 from rfl]
    norm_num
  simp only [profileAt, denomAt]
  push_cast
  rw [h24s, h24c, h23c, hsq, Real.sin_pi, Real.cos_pi]
  simp only [Prod.mk.injEq]
  constructor
  · norm_num [hsign]
  · norm_num [hsign]

/-- C2 counterexample: for the claim's assembly parameters, the transformed
disc-A point at `ψ = 0` is not the point reflection through the origin of
the transformed disc-B point at `ψ = 0 + π`: the two differ by a vector of
length `2e = 0.14`. -/
theorem dual_disc_pi_pairing_fails :
    discA_point 0 ≠ -discB_point (0 + π) := by
  have h0 : profileAt 24 23 (0.07 : ℝ) 0.125 2.25 0 = (0, 2.055) := by
    rw [profileAt_zero_eval 24 23 0.07 0.125 2.25 (by decide) (by norm_num)]
    norm_num
  have hpi : profileAt 24 23 (0.07 : ℝ) 0.125 2.25 (0 + π) = (0, -2.195) := by
    rw [zero_add]
    exact profileAt_24_23_pi
  have hcos : (0 : ℝ) < Real.cos (0.5 * π / 23) := by
    apply Real.cos_pos_of_mem_Ioo
    constructor
    · nlinarith [Real.pi_pos]
    · nlinarith [Real.pi_pos]
  intro hc
  simp only [discA_point, discB_point, h0, hpi, planar_matrix] at hc
  have h2 := congrArg Prod.snd hc
  simp only [Prod.snd_neg, Real.cos_neg, Real.sin_neg] at h2
  nlinarith [h2, hcos]

/-- The 23-lobed profile turns with the parameter: advancing ψ by
`22π/23` rotates the profile point by `-22π/23` about the origin.  (All the
trigonometric terms of the profile are invariant modulo a common factor:
`23·(22π/23) = 22π` and `24·(22π/23) = 22π + 22π/23`.) -/
theorem profileAt_24_23_shift (e rz Rz ψ : ℝ) :
    profileAt 24 23 e rz Rz (ψ + 22 * π / 23) =
      (Real.cos (22 * π / 23) * (profileAt 24 23 e rz Rz ψ).1 +
         Real.sin (22 * π / 23) * (profileAt 24 23 e rz Rz ψ).2,
       -Real.sin (22 * π / 23) * (profileAt 24 23 e rz Rz ψ).1 +
         Real.cos (22 * π / 23) * (profileAt 24 23 e rz Rz ψ).2) := by
  have h23 : Real.cos ((23 : ℝ) / (24 - 23) * (ψ + 22 * π / 23)) =
      Real.cos ((23 : ℝ) / (24 - 23) * ψ) := by
    rw [show (23 : ℝ) / (24 - 23) * (ψ + 22 * π / 23) =
        (23 : ℝ) / (24 - 23) * ψ + (11 : ℤ) * (2 * π) by push_cast; ring,
      Real.cos_add_int_mul_two_pi]
  have h24s : Real.sin ((24 : ℝ) / (24 - 23) * (ψ + 22 * π / 23)) =
      Real.sin ((24 : ℝ) / (24 - 23) * ψ) * Real.cos (22 * π / 23) +
        Real.cos ((24 : ℝ) / (24 - 23) * ψ) * Real.sin (22 * π / 23) := by
    rw [show (24 : ℝ) / (24 - 23) * (ψ + 22 * π / 23) =
        ((24 : ℝ) / (24 - 23) * ψ + 22 * π / 23) + (11 : ℤ) * (2 * π) by
        push_cast; ring,
      Real.sin_add_int_mul_two_pi, Real.sin_add]
  have h24c : Real.cos ((24 : ℝ) / (24 - 23) * (ψ + 22 * π / 23)) =
      Real.cos ((24 : ℝ) / (24 - 23) * ψ) * Real.cos (22 * π / 23) -
        Real.sin ((24 : ℝ) / (24 - 23) * ψ) * Real.sin (22 * π / 23) := by
    rw [show (24 : ℝ) / (24 - 23) * (ψ + 22 * π / 23) =
        ((24 : ℝ) / (24 - 23) * ψ + 22 * π / 23) + (11 : ℤ) * (2 * π) by
        push_cast; ring,
      Real.cos_add_int_mul_two_pi, Real.cos_add]
  simp only [profileAt, denomAt]
  push_cast
  rw [h23, h24s, h24c, Real.sin_add ψ (22 * π / 23), Real.cos_add ψ (22 * π / 23)]
  simp only [Prod.mk.injEq]
  constructor
  · ring
  · ring

/-- C2 (amended): for the claim's assembly parameters, the transformed
disc-A point at ψ and the transformed disc-B point at `ψ + 22π/23`
(half a turn minus one tooth pitch, not `ψ + π`) are related by point
reflection through the origin — exactly, in real arithmetic. -/
theorem dual_disc_point_reflection (ψ : ℝ) :
    discA_point ψ = -discB_point (ψ + 22 * π / 23) := by
  have hsc := Real.sin_sq_add_cos_sq (0.5 * π / 23)
  have hca : Real.cos (22 * π / 23) = -Real.cos (2 * (0.5 * π / 23)) := by
    rw [show (22 : ℝ) * π / 23 = π - 2 * (0.5 * π / 23) by ring, Real.cos_pi_sub]
  have hsa : Real.sin (22 * π / 23) = Real.sin (2 * (0.5 * π / 23)) := by
    rw [show (22 : ℝ) * π / 23 = π - 2 * (0.5 * π / 23) by ring, Real.sin_pi_sub]
  simp only [discA_point, discB_point]
  rw [profileAt_24_23_shift]
  simp only [planar_matrix, Prod.neg_mk, Prod.mk.injEq]
  rw [Real.cos_neg, Real.sin_neg, hca, hsa, Real.cos_two_mul, Real.sin_two_mul]
  constructor
  · linear_combination
      ((-2) * Real.cos (0.5 * π / 23) * (profileAt 24 23 0.07 0.125 2.25 ψ).1) * hsc
  · linear_combination
      ((-2) * Real.cos (0.5 * π / 23) * (profileAt 24 23 0.07 0.125 2.25 ψ).2) * hsc

/-! ## The assembled drawing: normal form of dual_cycloidal -/

theorem exceptBindOk {ε : Type u} {α β : Type v} (x : α) (f : α → Except ε β) :
    (Except.ok x >>= f : Except ε β) = f x := rfl

theorem exceptPureOk {ε : Type u} {α : Type v} (x : α) :
    (pure x : Except ε α) = Except.ok x := rfl

theorem exceptMapOk {ε : Type u} {α β : Type v} (f : α → β) (x : α) :
    (Except.ok x : Except ε α).map f = Except.ok (f x) := rfl

/-- The full drawing produced by `dual_cycloidal` on its success domain
(`pattern_radius ≠ 0`, at least one pin, at least one input hole): the two
transformed and tagged disc curves followed by the pin ring and the two
bearing-hole rings. -/
theorem dual_cycloidal_eq (simplify : List (ℝ × ℝ) → List (ℝ × ℝ))
    (e rz Rz ir ip : ℝ) (Zb ic : ℤ)
    (hR : Rz ≠ 0) (hZb : 1 ≤ Zb) (hic : 1 ≤ ic) :
    dual_cycloidal simplify e Zb rz Rz ic ir ip = .ok ⟨
      ⟨some "cam_disc_A", .curve ((simplify (profileRaw Zb (Zb - 1) e rz Rz 11520)).map
        (planar_matrix (-e, 0) (0.5 * π / ((Zb : ℝ) - 1))))⟩ ::
      ⟨some "cam_disc_B", .curve ((simplify (profileRaw Zb (Zb - 1) e rz Rz 11520)).map
        (planar_matrix (e, 0) (-(0.5 * π / ((Zb : ℝ) - 1)))))⟩ ::
      (((List.range Zb.toNat).map fun k : ℕ => ⟨some "pins", .circle
          (Rz * Real.cos ((k : ℝ) * (2 * π / (Zb : ℝ))),
           Rz * Real.sin ((k : ℝ) * (2 * π / (Zb : ℝ)))) rz⟩) ++
        (((List.range ic.toNat).map fun k : ℕ => ⟨some "cam_disc_A", .circle
            (-e + ip * Real.cos ((k : ℝ) * (2 * π / (ic : ℝ))),
             ip * Real.sin ((k : ℝ) * (2 * π / (ic : ℝ)))) ir⟩) ++
          ((List.range ic.toNat).map fun k : ℕ => ⟨some "cam_disc_B", .circle
            (e + ip * Real.cos ((k : ℝ) * (2 * π / (ic : ℝ))),
             ip * Real.sin ((k : ℝ) * (2 * π / (ic : ℝ)))) ir⟩)))⟩ := by
  have hprof : cycloidal_profile Zb e rz Rz (some (Zb - 1)) 32 =
      .ok (profileRaw Zb (Zb - 1) e rz Rz 11520) := by
    rw [cycloidal_profile_ok Zb e rz Rz (some (Zb - 1)) 32
      (by simp only [Option.getD_some]; omega) hR]
    norm_num [show ((32 : ℝ) * 360) = ((11520 : ℕ) : ℝ) by norm_num,
      Int.floor_natCast, Int.toNat_natCast]
    exact congrArg (profileRaw Zb (Zb - 1) e rz Rz) (by decide)
  have hpins : circle_pattern Rz rz Zb = .ok ⟨(List.range Zb.toNat).map fun k : ℕ =>
      ⟨none, .circle (Rz * Real.cos ((k : ℝ) * (2 * π / (Zb : ℝ))),
        Rz * Real.sin ((k : ℝ) * (2 * π / (Zb : ℝ)))) rz⟩⟩ := by
    rw [circle_pattern, if_neg (by omega : ¬ Zb ≤ 0)]
    exact congrArg Except.ok (congrArg Path2D.mk
      (List.map_congr_left fun k _ => by simp))
  have hA : circle_pattern ip ir ic (-e, 0) = .ok ⟨(List.range ic.toNat).map fun k : ℕ =>
      ⟨none, .circle (-e + ip * Real.cos ((k : ℝ) * (2 * π / (ic : ℝ))),
        ip * Real.sin ((k : ℝ) * (2 * π / (ic : ℝ)))) ir⟩⟩ := by
    rw [circle_pattern, if_neg (by omega : ¬ ic ≤ 0)]
    exact congrArg Except.ok (congrArg Path2D.mk
      (List.map_congr_left fun k _ => by simp))
  have hB : circle_pattern ip ir ic (e, 0) = .ok ⟨(List.range ic.toNat).map fun k : ℕ =>
      ⟨none, .circle (e + ip * Real.cos ((k : ℝ) * (2 * π / (ic : ℝ))),
        ip * Real.sin ((k : ℝ) * (2 * π / (ic : ℝ)))) ir⟩⟩ := by
    rw [circle_pattern, if_neg (by omega : ¬ ic ≤ 0)]
    exact congrArg Except.ok (congrArg Path2D.mk
      (List.map_congr_left fun k _ => by simp))
  simp only [dual_cycloidal, hprof, hpins, hA, hB, exceptBindOk, exceptPureOk]
  simp only [load_path, simplify_spline, Path2D.apply_transform, Path2D.apply_layer,
    concatenate, Geom.mapPoints, List.map_cons, List.map_nil, List.map_map,
    List.flatten_cons, List.flatten_nil, List.append_nil, List.cons_append,
    List.nil_append, Function.comp_def, List.singleton_append]

/-! ## Claim C3: the disc transforms, spacing and layer tags -/

/-- C3: `dual_cycloidal` computes `half_tooth_spacing = π/(2·(Zb-1))` and
transforms disc A by offset `(-e, 0)` with rotation `+half_tooth_spacing`
(layer "cam_disc_A") and disc B — an unchanged duplicate of the same
simplified base curve — by offset `(+e, 0)` with rotation
`-half_tooth_spacing` (layer "cam_disc_B"), for every parameter set with
`pin_count ≥ 2` on which the call succeeds (nonzero pattern radius, at least
one input hole). -/
theorem dual_disc_transforms (simplify : List (ℝ × ℝ) → List (ℝ × ℝ))
    (e rz Rz ir ip : ℝ) (Zb ic : ℤ)
    (hZb : 2 ≤ Zb) (hR : Rz ≠ 0) (hic : 1 ≤ ic) :
    dual_cycloidal simplify e Zb rz Rz ic ir ip = .ok ⟨
      ⟨some "cam_disc_A", .curve ((simplify (profileRaw Zb (Zb - 1) e rz Rz 11520)).map
        (planar_matrix (-e, 0) (π / (2 * ((Zb : ℝ) - 1)))))⟩ ::
      ⟨some "cam_disc_B", .curve ((simplify (profileRaw Zb (Zb - 1) e rz Rz 11520)).map
        (planar_matrix (e, 0) (-(π / (2 * ((Zb : ℝ) - 1))))))⟩ ::
      (((List.range Zb.toNat).map fun k : ℕ => ⟨some "pins", .circle
          (Rz * Real.cos ((k : ℝ) * (2 * π / (Zb : ℝ))),
           Rz * Real.sin ((k : ℝ) * (2 * π / (Zb : ℝ)))) rz⟩) ++
        (((List.range ic.toNat).map fun k : ℕ => ⟨some "cam_disc_A", .circle
            (-e + ip * Real.cos ((k : ℝ) * (2 * π / (ic : ℝ))),
             ip * Real.sin ((k : ℝ) * (2 * π / (ic : ℝ)))) ir⟩) ++
          ((List.range ic.toNat).map fun k : ℕ => ⟨some "cam_disc_B", .circle
            (e + ip * Real.cos ((k : ℝ) * (2 * π / (ic : ℝ))),
             ip * Real.sin ((k : ℝ) * (2 * π / (ic : ℝ)))) ir⟩)))⟩ := by
  rw [dual_cycloidal_eq simplify e rz Rz ir ip Zb ic hR (by omega) hic,
    show (0.5 * π / ((Zb : ℝ) - 1)) = π / (2 * ((Zb : ℝ) - 1)) by
      rw [mul_comm (2 : ℝ) ((Zb : ℝ) - 1), ← div_div]
      ring]

/-- C3 witness: the module's default parameter set (`24` pins,
`eccentricity 0.07`), with the identity as the simplification collaborator. -/
theorem dual_disc_transforms_witness :
    dual_cycloidal id 0.07 24 0.125 2.25 3 0.5625 1.3125 = .ok ⟨
      ⟨some "cam_disc_A", .curve ((id (profileRaw 24 (24 - 1) 0.07 0.125 2.25 11520)).map
        (planar_matrix (-0.07, 0) (π / (2 * ((24 : ℤ) - 1 : ℝ)))))⟩ ::
      ⟨some "cam_disc_B", .curve ((id (profileRaw 24 (24 - 1) 0.07 0.125 2.25 11520)).map
        (planar_matrix (0.07, 0) (-(π / (2 * ((24 : ℤ) - 1 : ℝ))))))⟩ ::
      (((List.range (24 : ℤ).toNat).map fun k : ℕ => ⟨some "pins", .circle
          (2.25 * Real.cos ((k : ℝ) * (2 * π / ((24 : ℤ) : ℝ))),
           2.25 * Real.sin ((k : ℝ) * (2 * π / ((24 : ℤ) : ℝ)))) 0.125⟩) ++
        (((List.range (3 : ℤ).toNat).map fun k : ℕ => ⟨some "cam_disc_A", .circle
            (-0.07 + 1.3125 * Real.cos ((k : ℝ) * (2 * π / ((3 : ℤ) : ℝ))),
             1.3125 * Real.sin ((k : ℝ) * (2 * π / ((3 : ℤ) : ℝ)))) 0.5625⟩) ++
          ((List.range (3 : ℤ).toNat).map fun k : ℕ => ⟨some "cam_disc_B", .circle
            (0.07 + 1.3125 * Real.cos ((k : ℝ) * (2 * π / ((3 : ℤ) : ℝ))),
             1.3125 * Real.sin ((k : ℝ) * (2 * π / ((3 : ℤ) : ℝ)))) 0.5625⟩)))⟩ :=
  dual_disc_transforms id 0.07 0.125 2.25 0.5625 1.3125 24 3 (by norm_num)
    (by norm_num) (by norm_num)

/-! ## Claim C8: the two bearing-hole rings -/

/-- C8: `dual_cycloidal` generates the two input-bearing hole rings —
`input_count` circles of radius `input_radius` on a ring of radius
`input_pattern` — centered at `(-e, 0)` on layer "cam_disc_A" and at
`(+e, 0)` on layer "cam_disc_B", for every parameter set on which the call
succeeds. -/
theorem bearing_hole_rings (simplify : List (ℝ × ℝ) → List (ℝ × ℝ))
    (e rz Rz ir ip : ℝ) (Zb ic : ℤ)
    (hR : Rz ≠ 0) (hZb : 1 ≤ Zb) (hic : 1 ≤ ic) :
    (dual_cycloidal simplify e Zb rz Rz ic ir ip).map
      (fun d => d.entities.filter fun en =>
        en.layer == some "cam_disc_A" && en.geom.isCircle) =
      .ok ((List.range ic.toNat).map fun k : ℕ => ⟨some "cam_disc_A", .circle
        (-e + ip * Real.cos ((k : ℝ) * (2 * π / (ic : ℝ))),
         ip * Real.sin ((k : ℝ) * (2 * π / (ic : ℝ)))) ir⟩) ∧
    (dual_cycloidal simplify e Zb rz Rz ic ir ip).map
      (fun d => d.entities.filter fun en =>
        en.layer == some "cam_disc_B" && en.geom.isCircle) =
      .ok ((List.range ic.toNat).map fun k : ℕ => ⟨some "cam_disc_B", .circle
        (e + ip * Real.cos ((k : ℝ) * (2 * π / (ic : ℝ))),
         ip * Real.sin ((k : ℝ) * (2 * π / (ic : ℝ)))) ir⟩) := by
  rw [dual_cycloidal_eq simplify e rz Rz ir ip Zb ic hR hZb hic]
  constructor <;>
  · rw [exceptMapOk]
    congr 1
    simp [List.filter_append, List.filter_map, Function.comp_def, Geom.isCircle]

/-- C8 witness: the module's default parameter set, with the identity as the
simplification collaborator. -/
theorem bearing_hole_rings_witness :
    (dual_cycloidal id 0.07 24 0.125 2.25 3 0.5625 1.3125).map
      (fun d => d.entities.filter fun en =>
        en.layer == some "cam_disc_A" && en.geom.isCircle) =
      .ok ((List.range (3 : ℤ).toNat).map fun k : ℕ => ⟨some "cam_disc_A", .circle
        (-0.07 + 1.3125 * Real.cos ((k : ℝ) * (2 * π / ((3 : ℤ) : ℝ))),
         1.3125 * Real.sin ((k : ℝ) * (2 * π / ((3 : ℤ) : ℝ)))) 0.5625⟩) ∧
    (dual_cycloidal id 0.07 24 0.125 2.25 3 0.5625 1.3125).map
      (fun d => d.entities.filter fun en =>
        en.layer == some "cam_disc_B" && en.geom.isCircle) =
      .ok ((List.range (3 : ℤ).toNat).map fun k : ℕ => ⟨some "cam_disc_B", .circle
        (0.07 + 1.3125 * Real.cos ((k : ℝ) * (2 * π / ((3 : ℤ) : ℝ))),
         1.3125 * Real.sin ((k : ℝ) * (2 * π / ((3 : ℤ) : ℝ)))) 0.5625⟩) :=
  bearing_hole_rings id 0.07 0.125 2.25 0.5625 1.3125 24 3 (by norm_num)
    (by norm_num) (by norm_num)

/-! ## Claim C9: layer completeness and the pin ring -/

/-- C9: on every input where `dual_cycloidal` succeeds, the drawing contains
exactly the layers "cam_disc_A", "cam_disc_B" and "pins"; each layer's
entity list is non-empty; and the "pins" layer consists exactly of the pin
ring: `count_pin` circles of radius `radius_pin` on a ring of radius
`radius_pattern` centered at the origin. -/
theorem drawing_layers (simplify : List (ℝ × ℝ) → List (ℝ × ℝ))
    (e rz Rz ir ip : ℝ) (Zb ic : ℤ)
    (hR : Rz ≠ 0) (hZb : 1 ≤ Zb) (hic : 1 ≤ ic) :
    ((dual_cycloidal simplify e Zb rz Rz ic ir ip).map
      (fun d => (d.entities.map fun en => en.layer).toFinset) =
      .ok {some "cam_disc_A", some "cam_disc_B", some "pins"}) ∧
    ((dual_cycloidal simplify e Zb rz Rz ic ir ip).map
      (fun d => d.entities.filter fun en => en.layer == some "pins") =
      .ok ((List.range Zb.toNat).map fun k : ℕ => ⟨some "pins", .circle
        (Rz * Real.cos ((k : ℝ) * (2 * π / (Zb : ℝ))),
         Rz * Real.sin ((k : ℝ) * (2 * π / (Zb : ℝ)))) rz⟩)) ∧
    ((dual_cycloidal simplify e Zb rz Rz ic ir ip).map
      (fun d => (d.entities.filter fun en =>
        en.layer == some "cam_disc_A").isEmpty) = .ok false) ∧
    ((dual_cycloidal simplify e Zb rz Rz ic ir ip).map
      (fun d => (d.entities.filter fun en =>
        en.layer == some "cam_disc_B").isEmpty) = .ok false) ∧
    ((dual_cycloidal simplify e Zb rz Rz ic ir ip).map
      (fun d => (d.entities.filter fun en =>
        en.layer == some "pins").length) = .ok Zb.toNat) ∧
    Zb.toNat ≠ 0 := by
  rw [dual_cycloidal_eq simplify e rz Rz ir ip Zb ic hR hZb hic]
  have hZn : Zb.toNat ≠ 0 := by omega
  have hicn : ic.toNat ≠ 0 := by omega
  refine ⟨?_, ?_, ?_, ?_, ?_, hZn⟩
  · rw [exceptMapOk]
    congr 1
    simp only [List.map_cons, List.map_append, List.map_map, Function.comp_def,
      List.map_const', List.length_range, List.toFinset_cons, List.toFinset_append,
      List.toFinset_replicate_of_ne_zero hZn, List.toFinset_replicate_of_ne_zero hicn]
    decide
  · rw [exceptMapOk]
    congr 1
    simp [List.filter_append, List.filter_map, Function.comp_def]
  · rw [exceptMapOk]
    congr 1
  · rw [exceptMapOk]
    congr 1
  · rw [exceptMapOk]
    congr 1
    simp [List.filter_append, List.filter_map, Function.comp_def,
      List.length_append, List.length_map, List.length_range]

/-- C9 witness: the module's default parameter set, with the identity as the
simplification collaborator. -/
theorem drawing_layers_witness :
    ((dual_cycloidal id 0.07 24 0.125 2.25 3 0.5625 1.3125).map
      (fun d => (d.entities.map fun en => en.layer).toFinset) =
      .ok {some "cam_disc_A", some "cam_disc_B", some "pins"}) ∧
    ((dual_cycloidal id 0.07 24 0.125 2.25 3 0.5625 1.3125).map
      (fun d => d.entities.filter fun en => en.layer == some "pins") =
      .ok ((List.range (24 : ℤ).toNat).map fun k : ℕ => ⟨some "pins", .circle
        (2.25 * Real.cos ((k : ℝ) * (2 * π / ((24 : ℤ) : ℝ))),
         2.25 * Real.sin ((k : ℝ) * (2 * π / ((24 : ℤ) : ℝ)))) 0.125⟩)) ∧
    ((dual_cycloidal id 0.07 24 0.125 2.25 3 0.5625 1.3125).map
      (fun d => (d.entities.filter fun en =>
        en.layer == some "cam_disc_A").isEmpty) = .ok false) ∧
    ((dual_cycloidal id 0.07 24 0.125 2.25 3 0.5625 1.3125).map
      (fun d => (d.entities.filter fun en =>
        en.layer == some "cam_disc_B").isEmpty) = .ok false) ∧
    ((dual_cycloidal id 0.07 24 0.125 2.25 3 0.5625 1.3125).map
      (fun d => (d.entities.filter fun en =>
        en.layer == some "pins").length) = .ok (24 : ℤ).toNat) ∧
    (24 : ℤ).toNat ≠ 0 :=
  drawing_layers id 0.07 0.125 2.25 0.5625 1.3125 24 3 (by norm_num)
    (by norm_num) (by norm_num)

end Cycloidal
